import Mathlib

/-
Verification of the zwtf-client world-state reducer and DAG layout engine,
shallowly embedded from src/src/components/Main.tsx.

Modelling conventions:
- JS numbers used as indices, pointers and slots are modelled as Nat.
- The tree Record<BlockPtr, TreeEntry> is modelled as an association list;
  assignment replaces the value of an existing key in place and appends a
  fresh key at the end, matching JS object key insertion order.
- The per-layout maps (order, slotHeights, attCounts) are modelled as
  functions Nat -> Option Nat; hasOwnProperty is isSome.
- The y coordinate of a block position is Option Nat: none models the NaN
  produced by the source when it multiplies an undefined order by the slot
  height (layoutDag, line 544).
- The recursive process_block walk and the while spine walk are given fuel;
  in the source the recursion depth is bounded by the number of tree
  entries, so fuel (tree length + 1) never runs out on states the client
  reaches, and the concrete evaluations below stay well inside it.
- Rendering (sprites, lines, the viewport translation of whole containers)
  is out of scope; the layouts and draws counters record that layoutDag and
  drawRelations ran, which is the observable side effect the spec mentions.
-/

namespace ZWTF

/-- FFG checkpoint stake totals, from type FFG. -/
structure FFG where
  source : Nat
  target : Nat
  head : Nat
deriving DecidableEq

/-- Validator set counters, from type ValidatorCounts. -/
structure ValidatorCounts where
  total : Nat
  active : Nat
  slashed : Nat
  eligible : Nat
  nonEligible : Nat
  exiting : Nat
  withdrawable : Nat
deriving DecidableEq

/-- Eth1 data snapshot, from type Eth1Data. -/
structure Eth1Data where
  depositRoot : String
  depositCount : Nat
  blockHash : String
deriving DecidableEq

/-- Chain head snapshot, from type HeadSummary. -/
structure HeadSummary where
  headBlock : Nat
  slot : Nat
  proposerIndex : Nat
  validatorCounts : ValidatorCounts
  totalStaked : Nat
  avgBalance : Nat
  depositIndex : Nat
  eth1Data : Eth1Data
  previousFFG : FFG
  currentFFG : FFG
deriving DecidableEq

/-- Block summary, from type BlockSummary. -/
structure BlockSummary where
  selfPtr : Nat
  htr : String
  slot : Nat
  parent : Nat
deriving DecidableEq

/-- Attestation summary, from type AttestationSummary. -/
structure AttestationSummary where
  selfPtr : Nat
  slot : Nat
  commIndex : Nat
  head : Nat
  target : Nat
  source : Nat
deriving DecidableEq

/-- Latest-vote record, from type VoteSummary. -/
structure VoteSummary where
  validatorIndex : Nat
  attestationPtr : Nat
deriving DecidableEq

/-- Ring-buffer state pointers, from type MemoryState (carried in diffs, unused by updateWorld). -/
structure MemoryState where
  head : Nat
  finalized : Nat
  blocks : Nat
  attestations : Nat
  latestVotes : Nat
deriving DecidableEq

/-- Incremental state diff, from type MemoryDiff. -/
structure MemoryDiff where
  diffIndex : Nat
  previous : MemoryState
  head : List HeadSummary
  finalized : List Nat
  blocks : List BlockSummary
  attestations : List AttestationSummary
  latestVotes : List VoteSummary
deriving DecidableEq

/-- Tree index cell, from type TreeEntry. -/
structure TreeEntry where
  parent : Nat
  slot : Nat
  children : List Nat
deriving DecidableEq

/-- The tree index Record of World, as an association list in key insertion order. -/
abbrev Tree := List (Nat × TreeEntry)

/-- Key lookup in the tree Record. -/
def lookupTree (t : Tree) (k : Nat) : Option TreeEntry :=
  (t.find? (fun p => p.1 == k)).map (fun p => p.2)

/-- Key assignment in the tree Record: replace the value in place, or append a fresh key. -/
def setTree (t : Tree) (k : Nat) (e : TreeEntry) : Tree :=
  if (t.find? (fun p => p.1 == k)).isSome then
    t.map (fun p => if p.1 == k then (k, e) else p)
  else
    t ++ [(k, e)]

/-- Tree-index maintenance for one delivered block: the per-block body of the
blocks loop in World.updateWorld (Main.tsx lines 446-468). In the source,
prevSelf aliases the entry mutated in place, so by the time the guard
prevSelf.parent == 0 runs, the parent field already holds b.parent: the
guard is equivalent to (prevSelf missing or b.parent == 0). -/
def insertBlock (t : Tree) (b : BlockSummary) : Tree :=
  let prevSelf := lookupTree t b.selfPtr
  let t1 := match prevSelf with
    | some e => setTree t b.selfPtr { e with parent := b.parent, slot := b.slot }
    | none => setTree t b.selfPtr { parent := b.parent, slot := b.slot, children := [b.selfPtr] }
  match lookupTree t1 b.parent with
  | some pe =>
      if prevSelf.isNone || b.parent == 0 then
        setTree t1 b.parent { pe with children := pe.children ++ [b.selfPtr] }
      else t1
  | none => setTree t1 b.parent { parent := 0, slot := 0, children := [b.selfPtr] }

/-- Display object for a block: the summary it was built from plus the Pixi
container position that layoutDag sets. The y coordinate is Option Nat:
none models the NaN written when the block has no computed order. -/
structure PixiBlock where
  block : BlockSummary
  pos : Nat × Option Nat
deriving DecidableEq

/-- Display object for an attestation: the summary plus the source, target
and head block references resolved at construction time (dangling
references stay none and are never re-resolved), and the position. -/
structure PixiAttestation where
  attestation : AttestationSummary
  source : Option BlockSummary
  target : Option BlockSummary
  head : Option BlockSummary
  pos : Nat × Nat
deriving DecidableEq

/-- Display object for a validator: its index and the retained lastVotes
list. The source stores PixiAttestation references; the votes are kept here
as their attestation summaries, which is all addVote reads. -/
structure PixiValidator where
  index : Nat
  lastVotes : List AttestationSummary
deriving DecidableEq

/-- PixiValidator.addVote (Main.tsx lines 202-209): push the vote, re-sort
by the target block pointer ascending (JS Array.sort is stable; the
comparator is a.attestation.target - b.attestation.target), then keep only
the first three entries when more than three are held. sortVotes below is a
stable insertion sort for that comparator, hence computes the same list. -/
def insertByTarget (a : AttestationSummary) : List AttestationSummary → List AttestationSummary
  | [] => [a]
  | b :: rest => if b.target ≤ a.target then b :: insertByTarget a rest else a :: b :: rest

/-- Stable sort of a vote list by target pointer ascending. -/
def sortVotes (l : List AttestationSummary) : List AttestationSummary :=
  l.foldl (fun acc a => insertByTarget a acc) []

/-- PixiValidator.addVote on the retained vote list. -/
def addVote (lastVotes : List AttestationSummary) (att : AttestationSummary) : List AttestationSummary :=
  let l := sortVotes (lastVotes ++ [att])
  if l.length > 3 then l.take 3 else l

/-- The World state (class World): validator, head-summary, finalized,
block, attestation and tree bookkeeping, plus the expected next diff index.
layouts and draws count how often layoutDag and drawRelations ran. -/
structure World where
  valCount : Nat
  validators : List PixiValidator
  head : List HeadSummary
  finalized : List Nat
  blocks : List PixiBlock
  attestations : List PixiAttestation
  tree : Tree
  nextDiffIndex : Option Nat
  layouts : Nat
  draws : Nat
deriving DecidableEq

/-- The freshly constructed World before any diff arrived. -/
def initialWorld : World :=
  { valCount := 0, validators := [], head := [], finalized := [], blocks := [],
    attestations := [], tree := [], nextDiffIndex := none, layouts := 0, draws := 0 }

/-- World.getBlock: getChildByName finds the first child with the synthesized name. -/
def getBlock (w : World) (ptr : Nat) : Option PixiBlock :=
  w.blocks.find? (fun pb => pb.block.selfPtr == ptr)

/-- World.getAttestation. -/
def getAttestation (w : World) (ptr : Nat) : Option PixiAttestation :=
  w.attestations.find? (fun pa => pa.attestation.selfPtr == ptr)

/-- World.getValidator. -/
def getValidator (w : World) (vi : Nat) : Option PixiValidator :=
  w.validators.find? (fun v => v.index == vi)

/-- Fresh PixiValidator with an empty vote list (PixiValidator constructor). -/
def mkValidator (i : Nat) : PixiValidator := { index := i, lastVotes := [] }

/-- World.updateValSet (lines 381-390): add one validator per index from the
old count up to the new one, then store the new count. The grid resize in
updateValGridSize only moves validator sprites and is not modelled. -/
def updateValSet (w : World) (newValCount : Nat) : World :=
  { w with
    validators := w.validators ++ (List.range' w.valCount (newValCount - w.valCount)).map mkValidator,
    valCount := newValCount }

/-- The per-block body of the blocks loop in updateWorld (lines 443-469):
append the display object and merge the block into the tree index. -/
def addBlock (w : World) (b : BlockSummary) : World :=
  { w with blocks := w.blocks ++ [{ block := b, pos := (0, some 0) }],
           tree := insertBlock w.tree b }

/-- The per-attestation body of the attestations loop in updateWorld (lines
471-474): append the display object with source, target and head resolved
against the blocks known right now. -/
def addAttestation (w : World) (a : AttestationSummary) : World :=
  { w with attestations := w.attestations ++
      [{ attestation := a,
         source := (getBlock w a.source).map (fun pb => pb.block),
         target := (getBlock w a.target).map (fun pb => pb.block),
         head := (getBlock w a.head).map (fun pb => pb.block),
         pos := (0, 0) }] }

/-- Fold one vote into the first validator holding the given index, calling
addVote on its retained list (getChildByName followed by the in-place
mutation of that validator object). -/
def addVoteToVals : List PixiValidator → Nat → AttestationSummary → List PixiValidator
  | [], _, _ => []
  | v :: rest, vi, att =>
      if v.index == vi then { v with lastVotes := addVote v.lastVotes att } :: rest
      else v :: addVoteToVals rest vi att

/-- The per-vote body of the latestVotes loop in updateWorld (lines
476-486): drop the vote when the validator or the attestation is unknown,
otherwise fold it into the validator. -/
def processVote (w : World) (vote : VoteSummary) : World :=
  match getValidator w vote.validatorIndex with
  | none => w
  | some _ =>
    match getAttestation w vote.attestationPtr with
    | none => w
    | some att => { w with validators := addVoteToVals w.validators vote.validatorIndex att.attestation }

/-- Layout constant slotWidth (line 539). -/
def slotWidth : Nat := 30

/-- Layout constant slotHeight (line 540). -/
def slotHeight : Nat := 40

/-- Layout constant attOffsetX (line 547). -/
def attOffsetX : Nat := 10

/-- Layout constant attOffsetY (line 548). -/
def attOffsetY : Nat := 8

/-- A JS Record of numbers, as used for order, slotHeights and attCounts
inside layoutDag; hasOwnProperty is isSome on the lookup. -/
abbrev NMap := Nat → Option Nat

/-- The empty Record. -/
def emptyN : NMap := fun _ => none

/-- Key assignment in an NMap. -/
def setN (m : NMap) (k v : Nat) : NMap := fun k' => if k' = k then some v else m k'

/-- process_block inside layoutDag (lines 507-523): bump the height counter
of the slot, record the order of the block within its slot, then descend
depth-first into children that have no order yet. The state is the pair
(order, slotHeights). Fuel bounds the recursion depth; in the source every
recursive call targets a block that had no order and immediately receives
one, so the depth never exceeds the number of tree entries. -/
def processBlock (t : Tree) : Nat → Nat → NMap × NMap → NMap × NMap
  | 0, _, st => st
  | fuel+1, b, st =>
    match lookupTree t b with
    | none => st
    | some td =>
      let h := (st.2 td.slot).getD 0 + 1
      let st1 := (setN st.1 b (h - 1), setN st.2 td.slot h)
      td.children.foldl (fun acc c => if (acc.1 c).isSome then acc else processBlock t fuel c acc) st1

/-- The while loop of layoutDag (lines 526-537): walk from the head block
up the parent pointers, running process_block at every spine node, until a
missing tree entry or parent pointer zero stops the walk. Fuel bounds the
walk; the source loops forever if the parent chain cycles without ever
reaching zero, which no state reached through updateWorld produces. -/
def spineWalk (t : Tree) : Nat → Nat → NMap × NMap → NMap × NMap
  | 0, _, st => st
  | fuel+1, b, st =>
    match lookupTree t b with
    | none => st
    | some td =>
      let st' := processBlock t (t.length + 1) b st
      if td.parent == 0 then st' else spineWalk t fuel td.parent st'

/-- The order Record computed by one layoutDag run for a given head block:
seeded with order zero for the head (line 505), then filled by the spine
walk. -/
def layoutOrder (t : Tree) (headBlock : Nat) : NMap :=
  (spineWalk t (t.length + 1) headBlock (setN emptyN headBlock 0, emptyN)).1

/-- The block positioning loop of layoutDag (lines 541-546): every block in
the container is repositioned; x is its slot times slotWidth, y is its
order times slotHeight, which is NaN (modelled none) when the block
received no order this cycle. -/
def placeBlock (order : NMap) (pb : PixiBlock) : PixiBlock :=
  { pb with pos := (pb.block.slot * slotWidth, (order pb.block.selfPtr).map (fun o => o * slotHeight)) }

/-- The attestation positioning loop of layoutDag (lines 549-565): walk the
attestations in container order keeping a per-head running count; x is the
attestation's own slot times slotWidth plus attOffsetX, y is the order of
the head reference (zero when that block has no order) times slotHeight,
plus the previous count for this head times attOffsetY. -/
def placeAtts (order : NMap) : NMap → List PixiAttestation → List PixiAttestation
  | _, [] => []
  | counts, pa :: rest =>
      let c := (counts pa.attestation.head).getD 0 + 1
      let slotOrder := (order pa.attestation.head).getD 0
      { pa with pos := (pa.attestation.slot * slotWidth + attOffsetX,
                        slotOrder * slotHeight + (c - 1) * attOffsetY) }
        :: placeAtts order (setN counts pa.attestation.head c) rest

/-- World.layoutDag (lines 495-571): a no-op (beyond running) when no head
summary exists; otherwise compute the order Record from the last head
summary and reposition every block and attestation. The final translation
of the whole containers to center the head slot in the viewport is
rendering-surface state and is not modelled. -/
def layoutDag (w : World) : World :=
  let w' := { w with layouts := w.layouts + 1 }
  match w.head.getLast? with
  | none => w'
  | some hd =>
    let order := layoutOrder w.tree hd.headBlock
    { w' with blocks := w'.blocks.map (placeBlock order),
              attestations := placeAtts order emptyN w'.attestations }

/-- World.drawRelations (lines 583-594) reads positions and draws lines on
the rendering surface; only the fact that it ran is modelled. -/
def drawRelations (w : World) : World := { w with draws := w.draws + 1 }

/-- The apply path of World.updateWorld (lines 429-492): append head
summaries, grow the validator set to the largest total seen, append
finalized pointers, merge blocks into the display list and tree index,
instantiate attestations, fold votes, then lay out, redraw and record the
next expected diff index. -/
def applyDiff (w : World) (d : MemoryDiff) : World :=
  let w1 := { w with head := w.head ++ d.head }
  let maxValCount := d.head.foldl
    (fun m hs => if hs.validatorCounts.total > m then hs.validatorCounts.total else m) w1.valCount
  let w2 := if maxValCount ≠ w1.valCount then updateValSet w1 maxValCount else w1
  let w3 := { w2 with finalized := w2.finalized ++ d.finalized }
  let w4 := d.blocks.foldl addBlock w3
  let w5 := d.attestations.foldl addAttestation w4
  let w6 := d.latestVotes.foldl processVote w5
  let w7 := drawRelations (layoutDag w6)
  { w7 with nextDiffIndex := some (d.diffIndex + 1) }

/-- The return enum of World.updateWorld. -/
inductive UpdateResult
  | too_old
  | ok
  | too_new
deriving DecidableEq

/-- World.updateWorld (lines 419-493): when an expected next index exists,
reject diffs whose index is above it as too_new and below it as too_old
without touching anything; otherwise apply. -/
def updateWorld (w : World) (d : MemoryDiff) : UpdateResult × World :=
  match w.nextDiffIndex with
  | some n =>
      if n < d.diffIndex then (UpdateResult.too_new, w)
      else if n > d.diffIndex then (UpdateResult.too_old, w)
      else (UpdateResult.ok, applyDiff w d)
  | none => (UpdateResult.ok, applyDiff w d)

/-
Concrete inputs used by the witnesses and counterexamples below.
-/

/-- Zeroed validator counters. -/
def vc0 : ValidatorCounts :=
  { total := 0, active := 0, slashed := 0, eligible := 0, nonEligible := 0,
    exiting := 0, withdrawable := 0 }

/-- Validator counters with only a total. -/
def vcT (n : Nat) : ValidatorCounts := { vc0 with total := n }

/-- Head summary naming a head block and slot, everything else zeroed. -/
def mkHead (hb slot : Nat) : HeadSummary :=
  { headBlock := hb, slot := slot, proposerIndex := 0, validatorCounts := vc0,
    totalStaked := 0, avgBalance := 0, depositIndex := 0,
    eth1Data := { depositRoot := "", depositCount := 0, blockHash := "" },
    previousFFG := { source := 0, target := 0, head := 0 },
    currentFFG := { source := 0, target := 0, head := 0 } }

/-- Attestation summary with a given pointer, slot, head and target. -/
def mkAtt (sp slot hd tgt : Nat) : AttestationSummary :=
  { selfPtr := sp, slot := slot, commIndex := 0, head := hd, target := tgt, source := hd }

/-- Zeroed ring-buffer pointers. -/
def ms0 : MemoryState :=
  { head := 0, finalized := 0, blocks := 0, attestations := 0, latestVotes := 0 }

/-- An otherwise empty diff with a given index. -/
def diffAt (k : Nat) : MemoryDiff :=
  { diffIndex := k, previous := ms0, head := [], finalized := [], blocks := [],
    attestations := [], latestVotes := [] }

/-- The initial world with its expected next index already set. -/
def wAt (n : Nat) : World := { initialWorld with nextDiffIndex := some n }

/-
Small helper lemmas about the reducer pipeline.
-/

/-- The expected next index applyDiff records. -/
lemma applyDiff_nextDiffIndex (w : World) (d : MemoryDiff) :
    (applyDiff w d).nextDiffIndex = some (d.diffIndex + 1) := rfl

/-- C1: with an expected next index present, updateWorld answers too_new
strictly above it, too_old strictly below it, and on equality applies the
diff, records expected index diffIndex + 1, and rejects a redelivery of the
same diff as too_old. -/
theorem updateWorld_ordering (w : World) (d : MemoryDiff) (n : Nat)
    (h : w.nextDiffIndex = some n) :
    (n < d.diffIndex → (updateWorld w d).1 = UpdateResult.too_new) ∧
    (d.diffIndex < n → (updateWorld w d).1 = UpdateResult.too_old) ∧
    (n = d.diffIndex →
      (updateWorld w d).1 = UpdateResult.ok ∧
      (updateWorld w d).2.nextDiffIndex = some (d.diffIndex + 1) ∧
      (updateWorld (updateWorld w d).2 d).1 = UpdateResult.too_old) := by
  refine ⟨fun hlt => ?_, fun hgt => ?_, fun heq => ?_⟩
  · simp [updateWorld, h, hlt]
  · simp [updateWorld, h, hgt, Nat.not_lt.mpr (Nat.le_of_lt hgt)]
  · subst heq
    have happ : updateWorld w d = (UpdateResult.ok, applyDiff w d) := by
      simp [updateWorld, h]
    refine ⟨by simp [happ], by simp [happ, applyDiff_nextDiffIndex], ?_⟩
    rw [happ]
    simp [updateWorld, applyDiff_nextDiffIndex, Nat.lt_irrefl]

/-- C1 witness at concrete inputs. -/
theorem updateWorld_ordering_witness :
    (updateWorld (wAt 5) (diffAt 7)).1 = UpdateResult.too_new ∧
    (updateWorld (wAt 5) (diffAt 3)).1 = UpdateResult.too_old ∧
    (updateWorld (wAt 5) (diffAt 5)).1 = UpdateResult.ok ∧
    (updateWorld (wAt 5) (diffAt 5)).2.nextDiffIndex = some 6 ∧
    (updateWorld (updateWorld (wAt 5) (diffAt 5)).2 (diffAt 5)).1 = UpdateResult.too_old := by
  refine ⟨(updateWorld_ordering (wAt 5) (diffAt 7) 5 rfl).1 (by decide),
          (updateWorld_ordering (wAt 5) (diffAt 3) 5 rfl).2.1 (by decide),
          ((updateWorld_ordering (wAt 5) (diffAt 5) 5 rfl).2.2 rfl).1,
          ((updateWorld_ordering (wAt 5) (diffAt 5) 5 rfl).2.2 rfl).2.1,
          ((updateWorld_ordering (wAt 5) (diffAt 5) 5 rfl).2.2 rfl).2.2⟩

/-- C2: a diff rejected as too_old or too_new leaves the whole World State
untouched, and in particular triggers no layout recompute and no redraw. -/
theorem updateWorld_rejected_unchanged (w : World) (d : MemoryDiff)
    (h : (updateWorld w d).1 = UpdateResult.too_old ∨ (updateWorld w d).1 = UpdateResult.too_new) :
    (updateWorld w d).2 = w ∧
    (updateWorld w d).2.layouts = w.layouts ∧ (updateWorld w d).2.draws = w.draws := by
  cases hn : w.nextDiffIndex with
  | none => simp [updateWorld, hn] at h
  | some n =>
    by_cases h1 : n < d.diffIndex
    · simp [updateWorld, hn, h1]
    · by_cases h2 : n > d.diffIndex
      · simp [updateWorld, hn, h1, h2]
      · simp [updateWorld, hn, h1, h2] at h

/-- C2 witness at concrete inputs. -/
theorem updateWorld_rejected_unchanged_witness :
    (updateWorld (wAt 5) (diffAt 3)).2 = wAt 5 :=
  (updateWorld_rejected_unchanged (wAt 5) (diffAt 3) (Or.inl (by decide))).1

/-- C10: before any diff was applied there is no expected next index, and
updateWorld applies the diff and answers ok whatever its diffIndex is,
leaving the expected next index at diffIndex + 1. -/
theorem updateWorld_initial (w : World) (d : MemoryDiff)
    (h : w.nextDiffIndex = none) :
    (updateWorld w d).1 = UpdateResult.ok ∧
    (updateWorld w d).2 = applyDiff w d ∧
    (updateWorld w d).2.nextDiffIndex = some (d.diffIndex + 1) := by
  simp [updateWorld, h, applyDiff_nextDiffIndex]

/-- C10 witness at concrete inputs. -/
theorem updateWorld_initial_witness :
    (updateWorld initialWorld (diffAt 42)).1 = UpdateResult.ok ∧
    (updateWorld initialWorld (diffAt 42)).2.nextDiffIndex = some 43 :=
  ⟨(updateWorld_initial initialWorld (diffAt 42) rfl).1,
   (updateWorld_initial initialWorld (diffAt 42) rfl).2.2⟩

/-- A root block: parent pointer zero. -/
def bRoot : BlockSummary := { selfPtr := 1, htr := "a", slot := 1, parent := 0 }

/-- C3: the tree invariant fails on the code. Delivering the same root
block twice leaves its pointer twice in the children list of the sentinel
entry 0: the duplicate guard reads the child's parent pointer after it was
already overwritten with the delivered parent, and a genuine root's parent
pointer 0 is indistinguishable from the placeholder sentinel, so the guard
passes again and appends a second copy. -/
theorem insertBlock_duplicate_child_bug :
    lookupTree (insertBlock (insertBlock [] bRoot) bRoot) 0 =
      some { parent := 0, slot := 0, children := [1, 1] } ∧
    ¬ ([1, 1] : List Nat).Nodup := by decide

/-- Block 3 with parent 2, delivered first. -/
def bC4a : BlockSummary := { selfPtr := 3, htr := "c", slot := 3, parent := 2 }

/-- Block 4 with parent 1, delivered second; creates the placeholder for 1. -/
def bC4b : BlockSummary := { selfPtr := 4, htr := "d", slot := 4, parent := 1 }

/-- Block 2 with parent 1, delivered third; its own placeholder was created
by the delivery of block 3. -/
def bC4c : BlockSummary := { selfPtr := 2, htr := "b", slot := 2, parent := 1 }

/-- C4: filling in a placeholder fails to append the child to its parent.
After blocks (3, parent 2) and (4, parent 1), block 2 delivered with parent
1 finds its placeholder entry (previous parent 0) and an existing entry for
parent 1, and the claim says 2 is appended to the children of 1 since no
earlier pass appended it there; but the guard reads the child's parent
pointer after the in-place overwrite to 1, sees it nonzero, and skips the
append, so the children of 1 stay [4] and block 2 is lost from the tree. -/
theorem insertBlock_placeholder_append_bug :
    lookupTree (List.foldl insertBlock [] [bC4a, bC4b, bC4c]) 1 =
      some { parent := 0, slot := 0, children := [4] } ∧
    (2 : Nat) ∉ ([4] : List Nat) ∧
    lookupTree (List.foldl insertBlock [] [bC4a, bC4b, bC4c]) 2 =
      some { parent := 1, slot := 2, children := [3] } := by decide

/-- Four votes, targets 1 to 4, delivered in that order. -/
def attT1 : AttestationSummary := mkAtt 11 1 1 1

/-- Second vote, target 2. -/
def attT2 : AttestationSummary := mkAtt 12 2 1 2

/-- Third vote, target 3. -/
def attT3 : AttestationSummary := mkAtt 13 3 1 3

/-- Fourth and most recent vote, target 4. -/
def attT4 : AttestationSummary := mkAtt 14 4 1 4

/-- C5: the retained vote list is not the most recent votes in target
descending order. Folding four votes with targets 1, 2, 3, 4 keeps the
three lowest targets in ascending order and discards the most recent vote:
the sort comparator orders ascending by target and the slice keeps the
first three, the opposite of the claimed retention. -/
theorem addVote_keeps_oldest_bug :
    List.foldl addVote [] [attT1, attT2, attT3, attT4] = [attT1, attT2, attT3] ∧
    [attT1, attT2, attT3] ≠ [attT4, attT3, attT2] := by decide

/-- Diff delivering a head chain of one block plus an unreachable block 2
whose parent 99 never arrived. -/
def diffC8 : MemoryDiff :=
  { diffIndex := 0, previous := ms0, head := [mkHead 1 1], finalized := [],
    blocks := [{ selfPtr := 1, htr := "a", slot := 1, parent := 0 },
               { selfPtr := 2, htr := "b", slot := 7, parent := 99 }],
    attestations := [], latestVotes := [] }

/-- C8: blocks with no computed order are still repositioned. Block 2 is
unreachable from the head-to-root spine and receives no slot order, yet the
positioning loop still runs on it: its x becomes slot times slotWidth (210)
and its y becomes undefined times slotHeight, that is NaN (modelled none),
instead of staying at the default origin it held before this cycle. -/
theorem layout_unordered_block_bug :
    ((updateWorld initialWorld diffC8).2.blocks.map (fun pb => pb.pos))
      = [(30, some 0), (210, none)] ∧
    ((210 : Nat), (none : Option Nat)) ≠ ((0 : Nat), some 0) := by decide

/-- Diff delivering a head block at slot 3 and an attestation at slot 5
whose head reference is that block. -/
def diffC9 : MemoryDiff :=
  { diffIndex := 0, previous := ms0, head := [mkHead 3 3], finalized := [],
    blocks := [{ selfPtr := 3, htr := "c", slot := 3, parent := 0 }],
    attestations := [mkAtt 7 5 3 3], latestVotes := [] }

/-- C9 counterexample: an attestation at slot 5 whose head block sits at
slot 3 is placed at x 160, its own slot times slotWidth plus attOffsetX,
not at any x derived from the head block's slot 3. -/
theorem att_position_own_slot_counterexample :
    ((updateWorld initialWorld diffC9).2.attestations.map (fun pa => pa.pos)) = [(160, 0)] ∧
    (getBlock (updateWorld initialWorld diffC9).2 3).map (fun pb => pb.block.slot) = some 3 ∧
    (160 : Nat) ≠ 3 * slotWidth + attOffsetX ∧
    (160 : Nat) ≠ 3 * slotWidth := by decide

/-- Pointwise value of a Record assignment. -/
lemma setN_eval (m : NMap) (k v k' : Nat) :
    setN m k v k' = if k' = k then some v else m k' := rfl

/-- Position of the attestation at index i after the positioning loop: x is
its own slot scaled plus the fixed offset, y is the order of its head
reference scaled plus the running same-head count scaled, where the count
starts from the incoming counts Record and adds the same-head attestations
placed earlier in the list. -/
lemma placeAtts_getElem (order : NMap) :
    ∀ (l : List PixiAttestation) (counts : NMap) (i : Nat) (pa : PixiAttestation),
      l[i]? = some pa →
      (placeAtts order counts l)[i]? = some
        { pa with pos := (pa.attestation.slot * slotWidth + attOffsetX,
            ((order pa.attestation.head).getD 0) * slotHeight +
            (((counts pa.attestation.head).getD 0) +
              (l.take i).countP (fun q => q.attestation.head == pa.attestation.head)) * attOffsetY) } := by
  intro l
  induction l with
  | nil => intro counts i pa h; simp at h
  | cons x rest ih =>
    intro counts i pa h
    cases i with
    | zero =>
      rw [List.getElem?_cons_zero] at h
      injection h with h
      subst h
      simp [placeAtts]
    | succ i =>
      rw [List.getElem?_cons_succ] at h
      have hrec := ih (setN counts x.attestation.head ((counts x.attestation.head).getD 0 + 1)) i pa h
      rw [placeAtts, List.getElem?_cons_succ, hrec]
      have hkey :
          ((setN counts x.attestation.head ((counts x.attestation.head).getD 0 + 1))
              pa.attestation.head).getD 0 +
            (rest.take i).countP (fun q => q.attestation.head == pa.attestation.head) =
          (counts pa.attestation.head).getD 0 +
            ((x :: rest).take (i + 1)).countP (fun q => q.attestation.head == pa.attestation.head) := by
        rw [List.take_succ_cons, List.countP_cons, setN_eval]
        by_cases hh : pa.attestation.head = x.attestation.head
        · simp [hh]
          omega
        · have hb : (x.attestation.head == pa.attestation.head) = false := by
            simp [beq_iff_eq]
            exact fun hc => hh hc.symm
          simp [hh, hb]
      rw [hkey]

/-- C9 as amended: in a layout cycle with a current head, the attestation
at index i ends up at x equal to its own slot times slotWidth plus
attOffsetX, and y equal to the order of the block referenced as its head
(0 when unresolved or unordered) times slotHeight plus k times attOffsetY,
where k counts the previously placed attestations sharing the same head
reference, so same-head attestations fan out vertically. -/
theorem attestation_layout (w : World) (hd : HeadSummary)
    (hh : w.head.getLast? = some hd)
    (i : Nat) (pa : PixiAttestation) (hi : w.attestations[i]? = some pa) :
    (layoutDag w).attestations[i]? = some
      { pa with pos := (pa.attestation.slot * slotWidth + attOffsetX,
          ((layoutOrder w.tree hd.headBlock) pa.attestation.head).getD 0 * slotHeight +
          ((w.attestations.take i).countP
              (fun q => q.attestation.head == pa.attestation.head)) * attOffsetY) } := by
  have hmain := placeAtts_getElem (layoutOrder w.tree hd.headBlock) w.attestations emptyN i pa hi
  simp only [layoutDag, hh]
  simpa [emptyN] using hmain

/-- A world holding one head summary, one tree entry and two attestations
sharing head reference 3, the first at slot 5 and the second at slot 6. -/
def wC9 : World :=
  { initialWorld with
    head := [mkHead 3 3],
    attestations :=
      [{ attestation := mkAtt 7 5 3 3, source := none, target := none, head := none, pos := (0, 0) },
       { attestation := mkAtt 8 6 3 3, source := none, target := none, head := none, pos := (0, 0) }],
    tree := [(3, { parent := 0, slot := 3, children := [3] })] }

/-- C9 witness: in wC9 the second attestation with head 3 lands one
attOffsetY below the first, both at their own slots. -/
theorem attestation_layout_witness :
    (layoutDag wC9).attestations[1]? = some
      { attestation := mkAtt 8 6 3 3, source := none, target := none, head := none,
        pos := (190, 8) } := by
  rw [attestation_layout wC9 (mkHead 3 3) rfl 1
      { attestation := mkAtt 8 6 3 3, source := none, target := none, head := none, pos := (0, 0) }
      rfl]
  decide

/-- Retained vote list of the first validator with the given index in a
validator list, empty when there is none. -/
def votesOfL (vals : List PixiValidator) (vi : Nat) : List AttestationSummary :=
  ((vals.find? (fun v => v.index == vi)).map (fun v => v.lastVotes)).getD []

/-- Retained vote list of a validator in the world (empty when absent). -/
def votesOf (w : World) (vi : Nat) : List AttestationSummary := votesOfL w.validators vi

/-- Vote lookup at a matching head of the list. -/
lemma votesOfL_cons_pos (v : PixiValidator) (l : List PixiValidator) (vi : Nat)
    (hv : (v.index == vi) = true) : votesOfL (v :: l) vi = v.lastVotes := by
  simp [votesOfL, List.find?_cons, hv]

/-- Vote lookup skips a non-matching head of the list. -/
lemma votesOfL_cons_neg (v : PixiValidator) (l : List PixiValidator) (vi : Nat)
    (hv : (v.index == vi) = false) : votesOfL (v :: l) vi = votesOfL l vi := by
  simp [votesOfL, List.find?_cons, hv]

/-- Appending validators with empty vote lists changes no vote lookup. -/
lemma votesOfL_append_empty (vals news : List PixiValidator) (vi : Nat)
    (hn : ∀ n ∈ news, n.lastVotes = []) :
    votesOfL (vals ++ news) vi = votesOfL vals vi := by
  induction vals with
  | nil =>
    simp only [List.nil_append]
    cases hf : news.find? (fun v => v.index == vi) with
    | none => simp [votesOfL, hf]
    | some n =>
      have hmem := List.mem_of_find?_eq_some hf
      simp [votesOfL, hf, hn n hmem]
  | cons v rest ih =>
    cases hv : v.index == vi with
    | true => rw [List.cons_append, votesOfL_cons_pos v _ vi hv, votesOfL_cons_pos v rest vi hv]
    | false =>
      rw [List.cons_append, votesOfL_cons_neg v _ vi hv, votesOfL_cons_neg v rest vi hv]
      exact ih

/-- Folding a vote into one validator leaves every other index's votes alone. -/
lemma votesOfL_addVoteToVals_ne (att : AttestationSummary) (j vi : Nat) (hne : j ≠ vi) :
    ∀ (vals : List PixiValidator),
      votesOfL (addVoteToVals vals j att) vi = votesOfL vals vi := by
  intro vals
  induction vals with
  | nil => rfl
  | cons v rest ih =>
    rw [addVoteToVals]
    cases hv : v.index == j with
    | true =>
      have hvi : (v.index == vi) = false := by
        have hj : v.index = j := by simpa using hv
        simp [hj, beq_eq_false_iff_ne, hne]
      rw [if_pos rfl]
      rw [votesOfL_cons_neg { index := v.index, lastVotes := addVote v.lastVotes att } rest vi hvi,
          votesOfL_cons_neg v rest vi hvi]
    | false =>
      rw [if_neg (by simp [hv])]
      cases hvi : v.index == vi with
      | true => rw [votesOfL_cons_pos _ _ _ hvi, votesOfL_cons_pos v rest vi hvi]
      | false =>
        rw [votesOfL_cons_neg _ _ _ hvi, votesOfL_cons_neg v rest vi hvi]
        exact ih

/-- Processing a vote for a different validator index preserves votes. -/
lemma processVote_votesOf_ne (w : World) (v : VoteSummary) (vi : Nat)
    (h : v.validatorIndex ≠ vi) :
    votesOf (processVote w v) vi = votesOf w vi := by
  unfold processVote
  cases getValidator w v.validatorIndex with
  | none => rfl
  | some val =>
    cases getAttestation w v.attestationPtr with
    | none => rfl
    | some att => exact votesOfL_addVoteToVals_ne att.attestation _ vi h w.validators

/-- A vote fold that never names an index preserves that index's votes. -/
lemma foldlVotes_votesOf (vi : Nat) :
    ∀ (l : List VoteSummary) (w : World), (∀ v ∈ l, v.validatorIndex ≠ vi) →
      votesOf (l.foldl processVote w) vi = votesOf w vi := by
  intro l
  induction l with
  | nil => intro w _; rfl
  | cons v rest ih =>
    intro w h
    rw [List.foldl_cons, ih _ (fun x hx => h x (List.mem_cons_of_mem v hx)),
        processVote_votesOf_ne w v vi (h v (List.mem_cons_self v rest))]

/-- A fold whose step preserves an observation preserves it overall. -/
lemma foldl_pres {α β : Type} (g : World → β) (f : World → α → World)
    (hf : ∀ w a, g (f w a) = g w) :
    ∀ (l : List α) (w : World), g (l.foldl f w) = g w := by
  intro l
  induction l with
  | nil => intro w; rfl
  | cons a rest ih => intro w; rw [List.foldl_cons, ih, hf]

/-- layoutDag never touches the validator list. -/
lemma layoutDag_validators (w : World) : (layoutDag w).validators = w.validators := by
  cases hh : w.head.getLast? <;> simp [layoutDag, hh]

/-- The same fold statement phrased on the validators projection. -/
lemma foldlVotes_votesOfL (vi : Nat) (l : List VoteSummary) :
    ∀ (w : World), (∀ v ∈ l, v.validatorIndex ≠ vi) →
      votesOfL (l.foldl processVote w).validators vi = votesOfL w.validators vi := by
  intro w h
  exact foldlVotes_votesOf vi l w h

/-- The validator list updateValSet produces. -/
lemma updateValSet_validators (w : World) (k : Nat) :
    (updateValSet w k).validators =
      w.validators ++ (List.range' w.valCount (k - w.valCount)).map mkValidator := rfl

/-- Applying a diff whose votes never name an index preserves that index's
retained votes: dropped votes are gone for good, later diffs do not
retroactively attach them. -/
lemma applyDiff_votesOf (w : World) (d : MemoryDiff) (vi : Nat)
    (hvi : ∀ v ∈ d.latestVotes, v.validatorIndex ≠ vi) :
    votesOf (applyDiff w d) vi = votesOf w vi := by
  simp only [votesOf, applyDiff, drawRelations]
  rw [layoutDag_validators]
  rw [foldlVotes_votesOfL vi d.latestVotes _ hvi]
  rw [foldl_pres World.validators addAttestation (fun _ _ => rfl) d.attestations]
  rw [foldl_pres World.validators addBlock (fun _ _ => rfl) d.blocks]
  split
  · rw [updateValSet_validators]
    exact votesOfL_append_empty _ _ vi (by
      intro n hn
      obtain ⟨i, _, rfl⟩ := List.mem_map.mp hn
      rfl)
  · rfl

/-- C6: a vote naming an unknown validator index or an unknown attestation
pointer is silently dropped, leaving the whole world unchanged (the model
is a total function, so no exception can occur); and an updateWorld call
whose diff contains no vote for a given validator index never changes that
validator's retained votes, so a later diff delivering a missing
attestation cannot retroactively attach an earlier dropped vote. -/
theorem votes_dropped_not_retroactive :
    (∀ (w : World) (v : VoteSummary),
       getValidator w v.validatorIndex = none ∨ getAttestation w v.attestationPtr = none →
       processVote w v = w) ∧
    (∀ (w : World) (d : MemoryDiff) (vi : Nat),
       (∀ v ∈ d.latestVotes, v.validatorIndex ≠ vi) →
       votesOf (updateWorld w d).2 vi = votesOf w vi) := by
  constructor
  · intro w v h
    rcases h with h | h
    · simp [processVote, h]
    · cases hv : getValidator w v.validatorIndex with
      | none => simp [processVote, hv]
      | some val => simp [processVote, hv, h]
  · intro w d vi h
    cases hn : w.nextDiffIndex with
    | none => simpa [updateWorld, hn] using applyDiff_votesOf w d vi h
    | some n =>
      by_cases h1 : n < d.diffIndex
      · simp [updateWorld, hn, h1]
      · by_cases h2 : n > d.diffIndex
        · simp [updateWorld, hn, h1, h2]
        · simpa [updateWorld, hn, h1, h2] using applyDiff_votesOf w d vi h

/-- A world holding one validator and no attestations. -/
def wV : World :=
  { initialWorld with valCount := 1, validators := [mkValidator 0], nextDiffIndex := some 1 }

/-- A diff delivering attestation 99 later, with no votes. -/
def diffLateAtt : MemoryDiff :=
  { diffIndex := 1, previous := ms0, head := [], finalized := [], blocks := [],
    attestations := [mkAtt 99 1 1 1], latestVotes := [] }

/-- C6 witness: the spec scenario with attestation pointer 99 arriving
after the vote that referenced it. -/
theorem votes_dropped_not_retroactive_witness :
    processVote wV { validatorIndex := 0, attestationPtr := 99 } = wV ∧
    votesOf (updateWorld wV diffLateAtt).2 0 = votesOf wV 0 :=
  ⟨votes_dropped_not_retroactive.1 wV { validatorIndex := 0, attestationPtr := 99 }
      (Or.inr (by decide)),
   votes_dropped_not_retroactive.2 wV diffLateAtt 0 (fun v hv => absurd hv (List.not_mem_nil v))⟩

/-- processVote never changes the validator count. -/
lemma processVote_valCount (w : World) (v : VoteSummary) :
    (processVote w v).valCount = w.valCount := by
  unfold processVote
  cases getValidator w v.validatorIndex with
  | none => rfl
  | some val =>
    cases getAttestation w v.attestationPtr with
    | none => rfl
    | some att => rfl

/-- layoutDag never changes the validator count. -/
lemma layoutDag_valCount (w : World) : (layoutDag w).valCount = w.valCount := by
  cases hh : w.head.getLast? <;> simp [layoutDag, hh]

/-- Folding a vote into a validator list keeps every index in place. -/
lemma addVoteToVals_map_index (att : AttestationSummary) (j : Nat) :
    ∀ vals : List PixiValidator,
      (addVoteToVals vals j att).map (fun v => v.index) = vals.map (fun v => v.index) := by
  intro vals
  induction vals with
  | nil => rfl
  | cons v rest ih =>
    rw [addVoteToVals]
    cases hv : v.index == j with
    | true => rw [if_pos rfl]; simp
    | false =>
      rw [if_neg (by simp [hv])]
      simp only [List.map_cons, ih]

/-- processVote keeps every validator index in place. -/
lemma processVote_map_index (w : World) (v : VoteSummary) :
    (processVote w v).validators.map (fun x => x.index) = w.validators.map (fun x => x.index) := by
  unfold processVote
  cases getValidator w v.validatorIndex with
  | none => rfl
  | some val =>
    cases getAttestation w v.attestationPtr with
    | none => rfl
    | some att => exact addVoteToVals_map_index att.attestation _ w.validators

/-- The vote fold keeps every validator index in place. -/
lemma foldl_processVote_map_index (l : List VoteSummary) (w : World) :
    (l.foldl processVote w).validators.map (fun x => x.index) =
      w.validators.map (fun x => x.index) :=
  foldl_pres (fun w' => w'.validators.map (fun x => x.index)) processVote processVote_map_index l w

/-- Adding an attestation keeps every validator index in place. -/
lemma addAttestation_map_index (w : World) (a : AttestationSummary) :
    (addAttestation w a).validators.map (fun x => x.index) =
      w.validators.map (fun x => x.index) := rfl

/-- Adding a block keeps every validator index in place. -/
lemma addBlock_map_index (w : World) (b : BlockSummary) :
    (addBlock w b).validators.map (fun x => x.index) =
      w.validators.map (fun x => x.index) := rfl

/-- The attestation fold keeps every validator index in place. -/
lemma foldl_addAttestation_map_index (l : List AttestationSummary) (w : World) :
    (l.foldl addAttestation w).validators.map (fun x => x.index) =
      w.validators.map (fun x => x.index) :=
  foldl_pres (fun w' => w'.validators.map (fun x => x.index)) addAttestation
    addAttestation_map_index l w

/-- The block fold keeps every validator index in place. -/
lemma foldl_addBlock_map_index (l : List BlockSummary) (w : World) :
    (l.foldl addBlock w).validators.map (fun x => x.index) =
      w.validators.map (fun x => x.index) :=
  foldl_pres (fun w' => w'.validators.map (fun x => x.index)) addBlock
    addBlock_map_index l w

/-- updateValSet appends exactly the indices from the old count up to the
new one. -/
lemma updateValSet_map_index (w : World) (k : Nat) :
    (updateValSet w k).validators.map (fun x => x.index) =
      w.validators.map (fun x => x.index) ++ List.range' w.valCount (k - w.valCount) := by
  rw [updateValSet_validators, List.map_append]
  congr 1
  rw [List.map_map, show ((fun (x : PixiValidator) => x.index) ∘ mkValidator) = id from rfl,
      List.map_id]

/-- The if-based running maximum in updateWorld computes the fold of max. -/
lemma foldl_if_max (l : List HeadSummary) :
    ∀ m : Nat,
      l.foldl (fun m hs => if hs.validatorCounts.total > m then hs.validatorCounts.total else m) m =
      l.foldl (fun m hs => max m hs.validatorCounts.total) m := by
  induction l with
  | nil => intro m; rfl
  | cons hs rest ih =>
    intro m
    have heq : (if hs.validatorCounts.total > m then hs.validatorCounts.total else m) =
        max m hs.validatorCounts.total := by
      split <;> omega
    rw [List.foldl_cons, List.foldl_cons, heq, ih]

/-- C7: an accepted diff grows the validator count to the maximum of its
previous value and every validatorCounts.total in the diff's head
summaries, and validators are never removed: the old indices stay in place
and exactly the indices from the old count up to the new one are appended. -/
theorem valset_growth (w : World) (d : MemoryDiff)
    (h : (updateWorld w d).1 = UpdateResult.ok) :
    (updateWorld w d).2.valCount =
      d.head.foldl (fun m hs => max m hs.validatorCounts.total) w.valCount ∧
    (updateWorld w d).2.validators.map (fun x => x.index) =
      w.validators.map (fun x => x.index) ++
      List.range' w.valCount
        (d.head.foldl (fun m hs => max m hs.validatorCounts.total) w.valCount - w.valCount) := by
  have happ : (updateWorld w d).2 = applyDiff w d := by
    cases hn : w.nextDiffIndex with
    | none => simp [updateWorld, hn]
    | some n =>
      by_cases h1 : n < d.diffIndex
      · simp [updateWorld, hn, h1] at h
      · by_cases h2 : n > d.diffIndex
        · simp [updateWorld, hn, h1, h2] at h
        · simp [updateWorld, hn, h1, h2]
  rw [happ]
  constructor
  · simp only [applyDiff, drawRelations]
    rw [layoutDag_valCount]
    rw [foldl_pres World.valCount processVote processVote_valCount d.latestVotes]
    rw [foldl_pres World.valCount addAttestation (fun _ _ => rfl) d.attestations]
    rw [foldl_pres World.valCount addBlock (fun _ _ => rfl) d.blocks]
    rw [← foldl_if_max]
    split
    · rfl
    · next hc =>
      push_neg at hc
      exact hc.symm
  · simp only [applyDiff, drawRelations]
    rw [layoutDag_validators]
    rw [foldl_processVote_map_index, foldl_addAttestation_map_index, foldl_addBlock_map_index]
    rw [← foldl_if_max]
    split
    · rw [updateValSet_map_index]
    · next hc =>
      push_neg at hc
      rw [hc]
      simp

/-- A world holding one validator, with expected next index 2. -/
def wC7 : World :=
  { initialWorld with valCount := 1, validators := [mkValidator 0], nextDiffIndex := some 2 }

/-- A diff whose two head summaries report totals 3 and 2. -/
def diffGrow : MemoryDiff :=
  { diffIndex := 2, previous := ms0,
    head := [{ mkHead 0 0 with validatorCounts := vcT 3 },
             { mkHead 0 0 with validatorCounts := vcT 2 }],
    finalized := [], blocks := [], attestations := [], latestVotes := [] }

/-- C7 witness: from count 1, totals 3 and 2 grow the set to 3 validators
with indices 0, 1, 2. -/
theorem valset_growth_witness :
    (updateWorld wC7 diffGrow).2.valCount = 3 ∧
    (updateWorld wC7 diffGrow).2.validators.map (fun x => x.index) = [0, 1, 2] := by
  have h := valset_growth wC7 diffGrow (by decide)
  refine ⟨?_, ?_⟩
  · rw [h.1]; decide
  · rw [h.2]; decide

end ZWTF
